import Mathlib

/-!
Shallow embedding of the three support primitives of the `python_tasks`
backend — the token-bucket rate limiter (`api/rate_limiter.py`), the hybrid
cache (`api/cache.py`), and the in-process priority task queue
(`api/task_queue.py`) — together with theorems settling the frozen claims
about them.

Modelling conventions:
* Python `float`/`time.time()` values are modelled as rationals (`ℚ`);
  wall-clock time is passed explicitly to every operation that reads it.
* Python `dict` is modelled as an association list in insertion order
  (Python dicts iterate in insertion order, and overwriting a key keeps its
  position; both facts matter for `min(...)`-based eviction).
* Python truthiness defaults (`x or default`) are modelled by `orZeroQ` /
  `orEmptyStr`: `None`, `0` and `""` all fall back to the default.
* A deferred payload (`func, args, kwargs`) is modelled by the outcome of
  its one invocation: `Except String V` — `.error msg` models the call
  raising an exception `e` with `str(e) = msg`.
-/

namespace PyTasks

/-- Python `x or d` for an optional numeric argument: `None` and `0` both
select the default (`0` is falsy). Mirrors `ttl = ttl or self.default_ttl`
and `capacity = capacity or self.default_capacity`. -/
def orZeroQ (v : Option ℚ) (d : ℚ) : ℚ :=
  match v with
  | none => d
  | some x => if x = 0 then d else x

/-- Python `s or d` for an optional string: `None` and `""` select the
default. Mirrors `self.id = task_id or f"task_..."`. -/
def orEmptyStr (v : Option String) (d : String) : String :=
  match v with
  | none => d
  | some s => if s = "" then d else s

/-! ## `api/rate_limiter.py` — `TokenBucket` -/

/-- State of `TokenBucket` (`rate_limiter.py` lines 17-25): `capacity`,
`refill_rate`, current `tokens` balance and `last_refill` timestamp.
The lock is irrelevant in this sequential model. -/
structure TokenBucket where
  capacity : ℚ
  refill_rate : ℚ
  tokens : ℚ
  last_refill : ℚ
deriving Repr, DecidableEq

namespace TokenBucket

/-- `TokenBucket.__init__`: the bucket starts full (`tokens = capacity`)
with `last_refill = time.time()` (passed as `now`). -/
def init (capacity refill_rate now : ℚ) : TokenBucket :=
  { capacity := capacity, refill_rate := refill_rate,
    tokens := capacity, last_refill := now }

/-- `TokenBucket.consume` (lines 27-37): refill
`tokens := min(capacity, tokens + elapsed * refill_rate)`, set
`last_refill := now`, then admit iff `tokens >= cost` (the Python
parameter is also named `tokens`; default cost is 1), debiting on success. -/
def consume (b : TokenBucket) (cost now : ℚ) : Bool × TokenBucket :=
  let elapsed := now - b.last_refill
  let tokens := min b.capacity (b.tokens + elapsed * b.refill_rate)
  if cost ≤ tokens then
    (true, { b with tokens := tokens - cost, last_refill := now })
  else
    (false, { b with tokens := tokens, last_refill := now })

/-- Run a sequence of `consume` calls; each list element is
`(cost, wall-clock time of the call)`. -/
def consumeAll (b : TokenBucket) (calls : List (ℚ × ℚ)) : TokenBucket :=
  calls.foldl (fun s c => (s.consume c.1 c.2).2) b

/-- The spec's invariant `0 ≤ tokens ≤ capacity`. -/
def Inv (b : TokenBucket) : Prop := 0 ≤ b.tokens ∧ b.tokens ≤ b.capacity

instance (b : TokenBucket) : Decidable b.Inv := by
  unfold Inv; infer_instance

end TokenBucket

/-- A call sequence is well-formed from time `t` when every cost is
non-negative and call times are non-decreasing (the wall clock never runs
backwards), starting no earlier than `t`. -/
def callsOK : ℚ → List (ℚ × ℚ) → Bool
  | _, [] => true
  | t, c :: rest => decide (0 ≤ c.1) && decide (t ≤ c.2) && callsOK c.2 rest

theorem callsOK_take (n : Nat) :
    ∀ (t : ℚ) (calls : List (ℚ × ℚ)), callsOK t calls = true →
      callsOK t (calls.take n) = true := by
  induction n with
  | zero => intro t calls _; simp [callsOK]
  | succ n ih =>
    intro t calls h
    cases calls with
    | nil => simp [callsOK]
    | cons c rest =>
      simp only [callsOK, Bool.and_eq_true] at h ⊢
      exact ⟨h.1, ih c.2 rest h.2⟩

theorem consume_preserves_inv (b : TokenBucket) (cost now : ℚ)
    (hb : b.Inv) (hc : 0 ≤ cost) (hr : 0 ≤ b.refill_rate)
    (ht : b.last_refill ≤ now) :
    (b.consume cost now).2.Inv := by
  obtain ⟨h0, hcap⟩ := hb
  have hcap0 : 0 ≤ b.capacity := le_trans h0 hcap
  have helap : 0 ≤ (now - b.last_refill) * b.refill_rate :=
    mul_nonneg (sub_nonneg.mpr ht) hr
  unfold TokenBucket.consume
  by_cases hle : cost ≤ min b.capacity (b.tokens + (now - b.last_refill) * b.refill_rate)
  · simp only [hle, if_pos, TokenBucket.Inv]
    constructor
    · exact sub_nonneg.mpr hle
    · exact le_trans (sub_le_self _ hc) (min_le_left _ _)
  · simp only [hle, if_neg, not_false_iff, TokenBucket.Inv]
    constructor
    · exact le_min hcap0 (add_nonneg h0 helap)
    · exact min_le_left _ _

theorem consume_keeps_rate (b : TokenBucket) (cost now : ℚ) :
    (b.consume cost now).2.refill_rate = b.refill_rate ∧
      (b.consume cost now).2.last_refill = now := by
  unfold TokenBucket.consume
  by_cases hle : cost ≤ min b.capacity (b.tokens + (now - b.last_refill) * b.refill_rate) <;>
    simp [hle]

theorem consume_keeps_capacity (b : TokenBucket) (cost now : ℚ) :
    (b.consume cost now).2.capacity = b.capacity := by
  unfold TokenBucket.consume
  by_cases hle : cost ≤ min b.capacity (b.tokens + (now - b.last_refill) * b.refill_rate) <;>
    simp [hle]

theorem consumeAll_inv (calls : List (ℚ × ℚ)) :
    ∀ b : TokenBucket, b.Inv → 0 ≤ b.refill_rate →
      callsOK b.last_refill calls = true → (b.consumeAll calls).Inv := by
  induction calls with
  | nil => intro b hb _ _; exact hb
  | cons c rest ih =>
    intro b hb hr hok
    simp only [callsOK, Bool.and_eq_true, decide_eq_true_eq] at hok
    obtain ⟨⟨hc, ht⟩, hrest⟩ := hok
    have hstep := consume_preserves_inv b c.1 c.2 hb hc hr ht
    have hkeep := consume_keeps_rate b c.1 c.2
    simp only [TokenBucket.consumeAll, List.foldl_cons]
    refine ih (b.consume c.1 c.2).2 hstep ?_ ?_
    · rw [hkeep.1]; exact hr
    · rw [hkeep.2]; exact hrest

/-! ## Association lists modelling Python `dict`

Python dicts iterate in insertion order; assigning to an existing key keeps
its position, assigning a new key appends, `del` removes. -/

/-- `d.get(k)` / `d[k]`. -/
def lookupA {α : Type} (l : List (String × α)) (k : String) : Option α :=
  match l with
  | [] => none
  | (k', v) :: rest => if k' = k then some v else lookupA rest k

/-- `d[k] = v`: overwrite in place when present, append when absent. -/
def setA {α : Type} (l : List (String × α)) (k : String) (v : α) :
    List (String × α) :=
  match l with
  | [] => [(k, v)]
  | (k', v') :: rest => if k' = k then (k, v) :: rest else (k', v') :: setA rest k v

/-- `del d[k]` (no-op when absent; the source always guards the del). -/
def eraseA {α : Type} (l : List (String × α)) (k : String) :
    List (String × α) :=
  match l with
  | [] => []
  | (k', v') :: rest => if k' = k then rest else (k', v') :: eraseA rest k

theorem lookupA_setA_self {α : Type} (l : List (String × α)) (k : String) (v : α) :
    lookupA (setA l k v) k = some v := by
  induction l with
  | nil => simp [setA, lookupA]
  | cons p rest ih =>
    by_cases h : p.1 = k
    · simp [setA, lookupA, h]
    · simp [setA, lookupA, h, ih]

/-! ## `api/rate_limiter.py` — `RateLimiter` -/

/-- State of `RateLimiter` (lines 40-49): per-key bucket map, defaults, and
the `allowed`/`blocked` diagnostic counters. -/
structure RateLimiter where
  buckets : List (String × TokenBucket)
  default_capacity : ℚ
  default_refill_rate : ℚ
  allowed : Nat
  blocked : Nat
deriving Repr, DecidableEq

namespace RateLimiter

/-- `RateLimiter.__init__`. -/
def init (default_capacity default_refill_rate : ℚ) : RateLimiter :=
  { buckets := [], default_capacity := default_capacity,
    default_refill_rate := default_refill_rate, allowed := 0, blocked := 0 }

/-- `RateLimiter.is_allowed` (lines 51-71): resolve `capacity`/`refill_rate`
via Python `or` (so a supplied `0` falls back to the default), lazily create
the key's bucket (full, at the current time), call `consume` on it, and bump
a counter. Python mutates the bucket object in place through the map's
shared reference; here the consumed bucket is written back under the same
key, which keeps its map position. -/
def is_allowed (rl : RateLimiter) (key : String) (cost : ℚ)
    (capacity refill_rate : Option ℚ) (now : ℚ) : Bool × RateLimiter :=
  let cap := orZeroQ capacity rl.default_capacity
  let rate := orZeroQ refill_rate rl.default_refill_rate
  let bucket :=
    match lookupA rl.buckets key with
    | some b => b
    | none => TokenBucket.init cap rate now
  let res := bucket.consume cost now
  if res.1 then
    (true, { rl with buckets := setA rl.buckets key res.2,
                     allowed := rl.allowed + 1 })
  else
    (false, { rl with buckets := setA rl.buckets key res.2,
                      blocked := rl.blocked + 1 })

end RateLimiter

theorem is_allowed_buckets (rl : RateLimiter) (key : String) (cost : ℚ)
    (capacity refill_rate : Option ℚ) (now : ℚ) :
    (rl.is_allowed key cost capacity refill_rate now).2.buckets =
      setA rl.buckets key
        ((match lookupA rl.buckets key with
          | some b => b
          | none => TokenBucket.init (orZeroQ capacity rl.default_capacity)
              (orZeroQ refill_rate rl.default_refill_rate) now).consume cost now).2 := by
  unfold RateLimiter.is_allowed
  by_cases h : ((match lookupA rl.buckets key with
      | some b => b
      | none => TokenBucket.init (orZeroQ capacity rl.default_capacity)
          (orZeroQ refill_rate rl.default_refill_rate) now).consume cost now).1 = true <;>
    simp_all

/-- C3: for every `TokenBucket` and every well-formed sequence of `consume`
calls with non-negative costs and a non-decreasing clock, the invariant
`0 ≤ tokens ≤ capacity` holds after every call (every prefix of the
sequence); a `consume` on an empty bucket after advancing time by `t`
seconds leaves at most `min(capacity, t * refill_rate)` tokens available;
and a bucket with capacity 10 and refill rate 0 that has consumed 10 tokens
rejects a further consume of cost 1. -/
theorem c3_token_bucket_invariant_and_bounds
    (b : TokenBucket) (calls : List (ℚ × ℚ)) (n : Nat)
    (hb : b.Inv) (hr : 0 ≤ b.refill_rate)
    (hok : callsOK b.last_refill calls = true) :
    (b.consumeAll (calls.take n)).Inv
    ∧ (∀ c r n0 t cost : ℚ, 0 ≤ cost →
        ((TokenBucket.mk c r 0 n0).consume cost (n0 + t)).2.tokens ≤ min c (t * r))
    ∧ ((TokenBucket.init 10 0 0).consume 10 0).1 = true
    ∧ (((TokenBucket.init 10 0 0).consume 10 0).2.consume 1 0).1 = false := by
  refine ⟨consumeAll_inv _ b hb hr (callsOK_take n _ _ hok), ?_,
    by norm_num [TokenBucket.consume, TokenBucket.init],
    by norm_num [TokenBucket.consume, TokenBucket.init]⟩
  intro c r n0 t cost hcost
  have he : (0 : ℚ) + (n0 + t - n0) * r = t * r := by ring
  simp only [TokenBucket.consume]
  split_ifs with hle
  · simp only []
    rw [he] at hle ⊢
    exact le_trans (sub_le_self _ hcost) le_rfl
  · simp only []
    rw [he]

/-- C3 witness: the theorem applied to a bucket of capacity 5, refill rate
1, and the two-call sequence consume 1 at time 0, consume 2 at time 3. -/
theorem c3_witness :
    ((TokenBucket.init 5 1 0).consumeAll
      ([((1 : ℚ), (0 : ℚ)), ((2 : ℚ), (3 : ℚ))].take 2)).Inv :=
  (c3_token_bucket_invariant_and_bounds (TokenBucket.init 5 1 0)
    [(1, 0), (2, 3)] 2 (by decide) (by decide) (by decide)).1

/-- C9 counterexample: `is_allowed` with an explicitly supplied
`capacity = 0` and `refill_rate = 0` creates the bucket with the limiter's
defaults (100 and 10), not with the supplied values — Python's
`capacity or self.default_capacity` treats a supplied `0` as absent. -/
theorem c9_counterexample :
    (lookupA ((RateLimiter.init 100 10).is_allowed "k" 1 (some 0) (some 0)
        0).2.buckets "k").map TokenBucket.capacity = some 100
    ∧ (lookupA ((RateLimiter.init 100 10).is_allowed "k" 1 (some 0) (some 0)
        0).2.buckets "k").map TokenBucket.refill_rate = some 10
    ∧ ¬ ((lookupA ((RateLimiter.init 100 10).is_allowed "k" 1 (some 0) (some 0)
        0).2.buckets "k").map TokenBucket.capacity = some 0) := by
  refine ⟨?_, ?_, ?_⟩ <;>
    norm_num [RateLimiter.is_allowed, RateLimiter.init, TokenBucket.init,
      TokenBucket.consume, orZeroQ, lookupA, setA]

/-- C9 amended: the first `is_allowed` call for an unseen key creates that
key's bucket with the supplied capacity and refill rate when they are
non-zero, falling back to the limiter's defaults when they are absent or
zero (Python `or` truthiness); a call for a key that already has a bucket
reuses it, leaving its capacity and refill rate unchanged whatever
parameters are supplied. -/
theorem c9_lazy_bucket_creation (rl : RateLimiter) (key : String) (cost : ℚ)
    (capacity refill_rate : Option ℚ) (now : ℚ) :
    (lookupA rl.buckets key = none →
      (lookupA (rl.is_allowed key cost capacity refill_rate now).2.buckets key).map
          TokenBucket.capacity = some (orZeroQ capacity rl.default_capacity)
      ∧ (lookupA (rl.is_allowed key cost capacity refill_rate now).2.buckets key).map
          TokenBucket.refill_rate = some (orZeroQ refill_rate rl.default_refill_rate))
    ∧ (∀ b0, lookupA rl.buckets key = some b0 →
      (lookupA (rl.is_allowed key cost capacity refill_rate now).2.buckets key).map
          TokenBucket.capacity = some b0.capacity
      ∧ (lookupA (rl.is_allowed key cost capacity refill_rate now).2.buckets key).map
          TokenBucket.refill_rate = some b0.refill_rate) := by
  constructor
  · intro hnone
    rw [is_allowed_buckets, hnone]
    rw [lookupA_setA_self]
    constructor
    · simp [consume_keeps_capacity, TokenBucket.init]
    · simp [(consume_keeps_rate _ _ _).1, TokenBucket.init]
  · intro b0 hsome
    rw [is_allowed_buckets, hsome]
    rw [lookupA_setA_self]
    constructor
    · simp [consume_keeps_capacity]
    · simp [(consume_keeps_rate _ _ _).1]

/-- C9 witness: a fresh key with supplied non-zero capacity 7 gets a bucket
of capacity 7. -/
theorem c9_witness :
    (lookupA ((RateLimiter.init 100 10).is_allowed "fresh" 1 (some 7) (some 2)
        0).2.buckets "fresh").map TokenBucket.capacity =
      some (orZeroQ (some 7) 100) :=
  ((c9_lazy_bucket_creation (RateLimiter.init 100 10) "fresh" 1 (some 7)
    (some 2) 0).1 (by decide)).1

/-! ## `api/cache.py` — `InMemoryCache`, `RedisCache`, `HybridCache`

Values are an arbitrary type `V` (the source stores opaque serializable
data; the distributed adapter's JSON round-trip is abstracted away). -/

/-- State of `InMemoryCache` (lines 111-120): the insertion-ordered map of
`key ↦ (value, expiry)` plus configuration and hit/miss counters. -/
structure InMemoryCache (V : Type) where
  cache : List (String × V × ℚ)
  max_size : Nat
  default_ttl : ℚ
  hits : Nat
  misses : Nat
deriving Repr, DecidableEq

namespace InMemoryCache

variable {V : Type}

/-- `InMemoryCache.__init__`. -/
def init (max_size : Nat) (default_ttl : ℚ) : InMemoryCache V :=
  { cache := [], max_size := max_size, default_ttl := default_ttl,
    hits := 0, misses := 0 }

/-- `InMemoryCache.get` (lines 122-132): hit when the entry exists and
`now < expiry`; an expired entry is deleted and counted as a miss
(lazy expiry). -/
def get (c : InMemoryCache V) (key : String) (now : ℚ) :
    Option V × InMemoryCache V :=
  match lookupA c.cache key with
  | some (v, expiry) =>
    if now < expiry then (some v, { c with hits := c.hits + 1 })
    else (none, { c with cache := eraseA c.cache key, misses := c.misses + 1 })
  | none => (none, { c with misses := c.misses + 1 })

/-- One comparison step of Python's `min` with `key=lambda k: ...[1]`:
keep the incumbent unless the next entry's expiry is strictly smaller. -/
def pickOlder (best x : String × V × ℚ) : String × V × ℚ :=
  if x.2.2 < best.2.2 then x else best

/-- The entry Python's `min(self._cache.keys(), key=lambda k: ...[1])`
selects: the first entry (in insertion order) with the smallest expiry. -/
def minExpiryEntry (l : List (String × V × ℚ)) : Option (String × V × ℚ) :=
  match l with
  | [] => none
  | e :: rest => some (rest.foldl pickOlder e)

/-- `InMemoryCache._evict_oldest` (lines 155-159): delete the entry with
the soonest expiry; no-op on an empty map. -/
def evict_oldest (c : InMemoryCache V) : InMemoryCache V :=
  match minExpiryEntry c.cache with
  | none => c
  | some ent => { c with cache := eraseA c.cache ent.1 }

/-- `InMemoryCache.set` (lines 134-141): resolve the ttl via Python `or`,
evict when the map already holds `max_size` or more entries (this check
precedes — and is independent of — whether `key` is already present),
then write `key ↦ (value, now + ttl)`. -/
def set (c : InMemoryCache V) (key : String) (v : V) (ttl : Option ℚ)
    (now : ℚ) : InMemoryCache V :=
  let t := orZeroQ ttl c.default_ttl
  let expiry := now + t
  let c1 := if c.max_size ≤ c.cache.length then c.evict_oldest else c
  { c1 with cache := setA c1.cache key (v, expiry) }

/-- `InMemoryCache.delete` (lines 143-148): true iff the key was present
(and is then removed). -/
def delete (c : InMemoryCache V) (key : String) : Bool × InMemoryCache V :=
  match lookupA c.cache key with
  | some _ => (true, { c with cache := eraseA c.cache key })
  | none => (false, c)

/-- `InMemoryCache.clear` (lines 150-153): drop every entry; returns
nothing. -/
def clear (c : InMemoryCache V) : InMemoryCache V :=
  { c with cache := [] }

end InMemoryCache

/-- Shell-glob matching as used by the external store's `SCAN ... MATCH`
(`*` matches any run, `?` any single character; other characters are
literal). -/
def globMatch : List Char → List Char → Bool
  | [], [] => true
  | '*' :: ps, [] => globMatch ps []
  | '*' :: ps, c :: s => globMatch ps (c :: s) || globMatch ('*' :: ps) s
  | '?' :: ps, _ :: s => globMatch ps s
  | p :: ps, c :: s => (p == c) && globMatch ps s
  | _ :: _, [] => false
  | [], _ :: _ => false
termination_by p s => p.length + s.length
decreasing_by all_goals simp_arith

def globMatchStr (p s : String) : Bool := globMatch p.data s.data

/-- The fixed namespace prefixing every key sent to the external store
(`f"neurokid:{key}"`). -/
def redisKey (key : String) : String := "neurokid:" ++ key

/-- State of `RedisCache` (lines 20-39): the sticky connected flag, the
external store's contents (modelled as a map of already-prefixed keys; the
JSON serialization round-trip and per-key TTL bookkeeping of the external
store are abstracted away), and counters. Transport errors are not
modelled: every claim settled against this model concerns the
non-erroring path, and the source maps an erroring call to
absent/false/0. -/
structure RedisCache (V : Type) where
  connected : Bool
  store : List (String × V)
  default_ttl : ℚ
  hits : Nat
  misses : Nat
deriving Repr, DecidableEq

namespace RedisCache

variable {V : Type}

/-- `RedisCache.is_connected`. -/
def is_connected (r : RedisCache V) : Bool := r.connected

/-- `RedisCache.get` (lines 45-58). -/
def get (r : RedisCache V) (key : String) : Option V × RedisCache V :=
  if r.connected then
    match lookupA r.store (redisKey key) with
    | some v => (some v, { r with hits := r.hits + 1 })
    | none => (none, { r with misses := r.misses + 1 })
  else (none, r)

/-- `RedisCache.set` (lines 60-69). -/
def set (r : RedisCache V) (key : String) (v : V) : Bool × RedisCache V :=
  if r.connected then (true, { r with store := setA r.store (redisKey key) v })
  else (false, r)

/-- `RedisCache.delete` (lines 71-79): `self._client.delete(...)` removes
the key and reports how many keys were removed, but the source discards
that count and returns `True` for every successful call — whether or not
the key existed. -/
def delete (r : RedisCache V) (key : String) : Bool × RedisCache V :=
  if r.connected then (true, { r with store := eraseA r.store (redisKey key) })
  else (false, r)

/-- `RedisCache.clear` (lines 81-97): scan for keys matching
`neurokid:<pattern>`, delete them, and return how many were deleted (the
cursor loop is modelled as one full scan of the store). -/
def clear (r : RedisCache V) (pat : String) : Nat × RedisCache V :=
  if r.connected then
    let matched := r.store.filter (fun e => globMatchStr (redisKey pat) e.1)
    (matched.length,
      { r with store := r.store.filter (fun e => !globMatchStr (redisKey pat) e.1) })
  else (0, r)

end RedisCache

/-- State of `HybridCache` (lines 175-186): the optional distributed
adapter and the local fallback map. -/
structure HybridCache (V : Type) where
  redis : Option (RedisCache V)
  memory : InMemoryCache V
  default_ttl : ℚ
deriving Repr, DecidableEq

namespace HybridCache

variable {V : Type}

/-- `HybridCache.is_distributed` (lines 188-190). -/
def is_distributed (h : HybridCache V) : Bool :=
  match h.redis with
  | some r => r.connected
  | none => false

/-- `HybridCache.get` (lines 192-195). -/
def get (h : HybridCache V) (key : String) (now : ℚ) :
    Option V × HybridCache V :=
  match h.redis with
  | some r =>
    if r.connected then
      let res := r.get key
      (res.1, { h with redis := some res.2 })
    else
      let res := h.memory.get key now
      (res.1, { h with memory := res.2 })
  | none =>
    let res := h.memory.get key now
    (res.1, { h with memory := res.2 })

/-- `HybridCache.set` (lines 197-201). -/
def set (h : HybridCache V) (key : String) (v : V) (ttl : Option ℚ)
    (now : ℚ) : HybridCache V :=
  match h.redis with
  | some r =>
    if r.connected then { h with redis := some (r.set key v).2 }
    else { h with memory := h.memory.set key v ttl now }
  | none => { h with memory := h.memory.set key v ttl now }

/-- `HybridCache.delete` (lines 203-206). -/
def delete (h : HybridCache V) (key : String) : Bool × HybridCache V :=
  match h.redis with
  | some r =>
    if r.connected then
      let res := r.delete key
      (res.1, { h with redis := some res.2 })
    else
      let res := h.memory.delete key
      (res.1, { h with memory := res.2 })
  | none =>
    let res := h.memory.delete key
    (res.1, { h with memory := res.2 })

/-- `HybridCache.clear` (lines 208-212): the distributed path forwards
`pattern or "*"` and returns the adapter's count; the local path empties
the map but returns `0`. -/
def clear (h : HybridCache V) (pat : String) : Nat × HybridCache V :=
  match h.redis with
  | some r =>
    if r.connected then
      let res := r.clear (orEmptyStr (some pat) "*")
      (res.1, { h with redis := some res.2 })
    else (0, { h with memory := h.memory.clear })
  | none => (0, { h with memory := h.memory.clear })

end HybridCache

/-! ### Association-list facts used by the cache theorems -/

theorem lookupA_none_iff {α : Type} (l : List (String × α)) (k : String) :
    lookupA l k = none ↔ k ∉ l.map Prod.fst := by
  induction l with
  | nil => simp [lookupA]
  | cons p rest ih =>
    by_cases h : p.1 = k
    · simp [lookupA, h]
    · simp [lookupA, h, ih, Ne.symm h]

theorem lookupA_setA_other {α : Type} (l : List (String × α)) (k k' : String)
    (v : α) (h : k' ≠ k) : lookupA (setA l k v) k' = lookupA l k' := by
  induction l with
  | nil => simp [setA, lookupA, Ne.symm h]
  | cons p rest ih =>
    by_cases hp : p.1 = k
    · simp [setA, lookupA, hp, Ne.symm h]
    · simp [setA, lookupA, hp, ih]

theorem keys_eraseA_sublist {α : Type} (l : List (String × α)) (k : String) :
    ((eraseA l k).map Prod.fst).Sublist (l.map Prod.fst) := by
  induction l with
  | nil => simp [eraseA]
  | cons p rest ih =>
    by_cases hp : p.1 = k
    · simp only [eraseA, hp, if_pos, List.map_cons]
      exact (List.sublist_cons_self _ _)
    · simp only [eraseA, hp, if_neg, not_false_iff, List.map_cons]
      exact ih.cons₂ _

theorem lookupA_eraseA_self {α : Type} (l : List (String × α)) (k : String)
    (h : (l.map Prod.fst).Nodup) : lookupA (eraseA l k) k = none := by
  induction l with
  | nil => simp [eraseA, lookupA]
  | cons p rest ih =>
    simp only [List.map_cons, List.nodup_cons] at h
    by_cases hp : p.1 = k
    · simp only [eraseA, hp, if_pos]
      rw [lookupA_none_iff]
      rw [hp] at h
      exact h.1
    · simp only [eraseA, hp, if_neg, not_false_iff, lookupA, ih h.2]

theorem length_eraseA_of_mem {α : Type} (l : List (String × α)) (k : String)
    (h : k ∈ l.map Prod.fst) : (eraseA l k).length + 1 = l.length := by
  induction l with
  | nil => simp at h
  | cons p rest ih =>
    by_cases hp : p.1 = k
    · simp [eraseA, hp]
    · simp only [List.map_cons, List.mem_cons] at h
      rcases h with h | h
      · exact absurd h.symm hp
      · simp only [eraseA, hp, if_neg, not_false_iff, List.length_cons]
        rw [← ih h]

theorem length_setA_of_none {α : Type} (l : List (String × α)) (k : String)
    (v : α) (h : lookupA l k = none) : (setA l k v).length = l.length + 1 := by
  induction l with
  | nil => simp [setA]
  | cons p rest ih =>
    by_cases hp : p.1 = k
    · simp [lookupA, hp] at h
    · simp only [lookupA, hp, if_neg, not_false_iff] at h
      simp [setA, hp, ih h]

theorem not_mem_keys_of_lookupA_none {α : Type} (l : List (String × α))
    (k : String) (h : lookupA l k = none) : k ∉ l.map Prod.fst :=
  (lookupA_none_iff l k).mp h

theorem mem_keys_of_lookupA_some {α : Type} (l : List (String × α))
    (k : String) (v : α) (h : lookupA l k = some v) : k ∈ l.map Prod.fst := by
  by_contra hmem
  rw [← lookupA_none_iff l k] at hmem
  rw [hmem] at h
  exact Option.noConfusion h

theorem eraseA_eq_of_none {α : Type} (l : List (String × α)) (k : String)
    (h : lookupA l k = none) : eraseA l k = l := by
  induction l with
  | nil => rfl
  | cons p rest ih =>
    by_cases hp : p.1 = k
    · simp [lookupA, hp] at h
    · simp only [lookupA, hp, if_neg, not_false_iff] at h
      simp [eraseA, hp, ih h]

theorem keys_setA_mem {α : Type} (l : List (String × α)) (k x : String)
    (v : α) (h : x ∈ (setA l k v).map Prod.fst) :
    x ∈ l.map Prod.fst ∨ x = k := by
  induction l with
  | nil => simp [setA] at h; exact Or.inr h
  | cons p rest ih =>
    by_cases hp : p.1 = k
    · simp only [setA, hp, if_pos, List.map_cons, List.mem_cons] at h
      rcases h with h | h
      · exact Or.inr h
      · exact Or.inl (List.mem_cons_of_mem _ h)
    · simp only [setA, hp, if_neg, not_false_iff, List.map_cons, List.mem_cons] at h
      rcases h with h | h
      · exact Or.inl (List.mem_cons.mpr (Or.inl h))
      · rcases ih h with h1 | h1
        · exact Or.inl (List.mem_cons_of_mem _ h1)
        · exact Or.inr h1

theorem nodup_keys_setA {α : Type} (l : List (String × α)) (k : String)
    (v : α) (h : (l.map Prod.fst).Nodup) :
    ((setA l k v).map Prod.fst).Nodup := by
  induction l with
  | nil => simp [setA]
  | cons p rest ih =>
    simp only [List.map_cons, List.nodup_cons] at h
    by_cases hp : p.1 = k
    · simp only [setA, hp, if_pos, List.map_cons, List.nodup_cons]
      exact ⟨hp ▸ h.1, h.2⟩
    · simp only [setA, hp, if_neg, not_false_iff, List.map_cons, List.nodup_cons]
      refine ⟨?_, ih h.2⟩
      intro hmem
      rcases keys_setA_mem rest k p.1 v hmem with h1 | h1
      · exact h.1 h1
      · exact hp h1

theorem nodup_keys_eraseA {α : Type} (l : List (String × α)) (k : String)
    (h : (l.map Prod.fst).Nodup) : ((eraseA l k).map Prod.fst).Nodup :=
  h.sublist (keys_eraseA_sublist l k)

/-! ### Facts about the eviction choice -/

namespace InMemoryCache

variable {V : Type}

theorem foldl_pickOlder_mem (rest : List (String × V × ℚ)) :
    ∀ e : String × V × ℚ, rest.foldl pickOlder e = e ∨ rest.foldl pickOlder e ∈ rest := by
  induction rest with
  | nil => intro e; exact Or.inl rfl
  | cons x xs ih =>
    intro e
    simp only [List.foldl_cons]
    rcases ih (pickOlder e x) with h | h
    · rw [h]
      unfold pickOlder
      split_ifs
      · exact Or.inr (List.mem_cons_self _ _)
      · exact Or.inl rfl
    · exact Or.inr (List.mem_cons_of_mem _ h)

theorem foldl_pickOlder_le (rest : List (String × V × ℚ)) :
    ∀ e x : String × V × ℚ, (x = e ∨ x ∈ rest) →
      (rest.foldl pickOlder e).2.2 ≤ x.2.2 := by
  induction rest with
  | nil =>
    intro e x hx
    rcases hx with rfl | hx
    · exact le_rfl
    · simp at hx
  | cons y ys ih =>
    intro e x hx
    simp only [List.foldl_cons]
    have hstep : (pickOlder e y).2.2 ≤ e.2.2 ∧ (pickOlder e y).2.2 ≤ y.2.2 := by
      unfold pickOlder
      split_ifs with hlt
      · exact ⟨le_of_lt hlt, le_rfl⟩
      · exact ⟨le_rfl, le_of_not_lt hlt⟩
    have hself : (ys.foldl pickOlder (pickOlder e y)).2.2 ≤ (pickOlder e y).2.2 :=
      ih (pickOlder e y) (pickOlder e y) (Or.inl rfl)
    rcases hx with rfl | hx
    · exact le_trans hself hstep.1
    · rcases List.mem_cons.mp hx with rfl | hx
      · exact le_trans hself hstep.2
      · exact ih (pickOlder e y) x (Or.inr hx)

theorem minExpiryEntry_mem (l : List (String × V × ℚ)) (ent : String × V × ℚ)
    (h : minExpiryEntry l = some ent) : ent ∈ l := by
  cases l with
  | nil => simp [minExpiryEntry] at h
  | cons e rest =>
    simp only [minExpiryEntry, Option.some_inj] at h
    rcases foldl_pickOlder_mem rest e with hm | hm
    · rw [h] at hm; rw [hm]; exact List.mem_cons_self _ _
    · rw [h] at hm; exact List.mem_cons_of_mem _ hm

theorem minExpiryEntry_le (l : List (String × V × ℚ)) (ent : String × V × ℚ)
    (h : minExpiryEntry l = some ent) : ∀ x ∈ l, ent.2.2 ≤ x.2.2 := by
  cases l with
  | nil => simp [minExpiryEntry] at h
  | cons e rest =>
    simp only [minExpiryEntry, Option.some_inj] at h
    intro x hx
    rw [← h]
    rcases List.mem_cons.mp hx with h1 | h1
    · exact foldl_pickOlder_le rest e x (Or.inl h1)
    · exact foldl_pickOlder_le rest e x (Or.inr h1)

theorem minExpiryEntry_isSome (l : List (String × V × ℚ)) (hne : l ≠ []) :
    ∃ ent, minExpiryEntry l = some ent := by
  cases l with
  | nil => exact absurd rfl hne
  | cons e rest => exact ⟨rest.foldl pickOlder e, rfl⟩

theorem set_cache_eq (c : InMemoryCache V) (key : String) (v : V)
    (ttl : Option ℚ) (now : ℚ) :
    (c.set key v ttl now).cache
      = setA (if c.max_size ≤ c.cache.length then c.evict_oldest else c).cache
          key (v, now + orZeroQ ttl c.default_ttl) := rfl

theorem nodup_keys_evict (c : InMemoryCache V)
    (h : (c.cache.map Prod.fst).Nodup) :
    (c.evict_oldest.cache.map Prod.fst).Nodup := by
  unfold evict_oldest
  cases hm : minExpiryEntry c.cache with
  | none => exact h
  | some ent => exact nodup_keys_eraseA c.cache ent.1 h

theorem nodup_keys_set (c : InMemoryCache V) (key : String) (v : V)
    (ttl : Option ℚ) (now : ℚ) (h : (c.cache.map Prod.fst).Nodup) :
    ((c.set key v ttl now).cache.map Prod.fst).Nodup := by
  rw [set_cache_eq]
  apply nodup_keys_setA
  by_cases hif : c.max_size ≤ c.cache.length
  · simp only [hif, if_pos]
    exact nodup_keys_evict c h
  · simp only [hif, if_neg, not_false_iff]
    exact h

end InMemoryCache

/-- C4: on the local in-memory cache, a `get k` performed after
`set k v ttl` at time `ts` returns `v` while fewer than `ttl` seconds have
elapsed (`now < ts + ttl`), and returns absent once at least `ttl` seconds
have elapsed (`ts + ttl ≤ now`); in the expired case the entry is removed
from the map as a side effect of the `get` (lazy expiry). Stated for an
effective (non-zero) supplied ttl and a well-formed map (no duplicate
keys — an invariant of the API, which only builds maps through `setA` /
`eraseA`). -/
theorem c4_get_after_set {V : Type} (c : InMemoryCache V) (key : String)
    (v : V) (ttl ts now : ℚ) (httl : ttl ≠ 0)
    (hnd : (c.cache.map Prod.fst).Nodup) :
    (now < ts + ttl → ((c.set key v (some ttl) ts).get key now).1 = some v)
    ∧ (ts + ttl ≤ now →
        ((c.set key v (some ttl) ts).get key now).1 = none
        ∧ lookupA ((c.set key v (some ttl) ts).get key now).2.cache key = none) := by
  have hor : orZeroQ (some ttl) c.default_ttl = ttl := by simp [orZeroQ, httl]
  have hlook : lookupA (c.set key v (some ttl) ts).cache key = some (v, ts + ttl) := by
    rw [InMemoryCache.set_cache_eq, hor]
    exact lookupA_setA_self _ key _
  constructor
  · intro hlt
    unfold InMemoryCache.get
    rw [hlook]
    simp [hlt]
  · intro hge
    have hnlt : ¬ now < ts + ttl := not_lt.mpr hge
    unfold InMemoryCache.get
    rw [hlook]
    simp only [hnlt, if_neg, not_false_iff]
    refine ⟨by trivial, ?_⟩
    exact lookupA_eraseA_self _ key
      (InMemoryCache.nodup_keys_set c key v (some ttl) ts hnd)

/-- C4 witness: set `"k" ↦ 7` at time 0 with ttl 10 on an empty cache;
a get at time 3 hits, a get at time 10 misses and removes the entry. -/
theorem c4_witness :
    (((InMemoryCache.init 100 300 : InMemoryCache Nat).set "k" 7 (some 10)
        0).get "k" 3).1 = some 7
    ∧ ((((InMemoryCache.init 100 300 : InMemoryCache Nat).set "k" 7 (some 10)
        0).get "k" 10).1 = none
      ∧ lookupA (((InMemoryCache.init 100 300 : InMemoryCache Nat).set "k" 7
          (some 10) 0).get "k" 10).2.cache "k" = none) :=
  ⟨(c4_get_after_set (InMemoryCache.init 100 300) "k" 7 10 0 3 (by norm_num)
      (by simp [InMemoryCache.init])).1 (by norm_num),
   (c4_get_after_set (InMemoryCache.init 100 300) "k" 7 10 0 10 (by norm_num)
      (by simp [InMemoryCache.init])).2 (by norm_num)⟩

/-- C5 counterexample: a cache constructed with `max_size = 0` already
holds `max_size` (= 0) entries, yet a set of a new key removes nothing
(there is nothing to evict) and leaves the map with 1 > `max_size`
entries — the claimed bound "never exceeds max_size after any set" fails. -/
theorem c5_counterexample :
    ((InMemoryCache.init 0 300 : InMemoryCache Nat).set "a" 7 none 0).max_size = 0
    ∧ ((InMemoryCache.init 0 300 : InMemoryCache Nat).set "a" 7 none
        0).cache.length = 1 := by
  constructor <;> rfl

/-- C5 amended (restricted to `max_size ≥ 1`, which the counterexample
forces): for every local cache with a positive bound whose map holds
exactly `max_size` entries, a set of a new key first removes exactly one
entry — one with the smallest expiry, selected as the first such in
insertion order, never any other — before inserting, and the map again
holds exactly `max_size` entries afterwards. -/
theorem c5_evict_soonest {V : Type} (c : InMemoryCache V) (key : String)
    (v : V) (ttl : Option ℚ) (now : ℚ)
    (hfull : c.cache.length = c.max_size) (hpos : 1 ≤ c.max_size)
    (hnew : lookupA c.cache key = none) :
    ∃ ent, InMemoryCache.minExpiryEntry c.cache = some ent
      ∧ ent ∈ c.cache
      ∧ (∀ x ∈ c.cache, ent.2.2 ≤ x.2.2)
      ∧ (c.set key v ttl now).cache
          = setA (eraseA c.cache ent.1) key (v, now + orZeroQ ttl c.default_ttl)
      ∧ (c.set key v ttl now).cache.length = c.max_size := by
  have hne : c.cache ≠ [] := by
    intro hnil
    rw [hnil] at hfull
    simp at hfull
    omega
  obtain ⟨ent, hent⟩ := InMemoryCache.minExpiryEntry_isSome c.cache hne
  have hif : c.max_size ≤ c.cache.length := le_of_eq hfull.symm
  have hcache : (c.set key v ttl now).cache
      = setA (eraseA c.cache ent.1) key (v, now + orZeroQ ttl c.default_ttl) := by
    rw [InMemoryCache.set_cache_eq]
    simp only [hif, if_pos]
    unfold InMemoryCache.evict_oldest
    rw [hent]
  refine ⟨ent, hent, InMemoryCache.minExpiryEntry_mem c.cache ent hent,
    InMemoryCache.minExpiryEntry_le c.cache ent hent, hcache, ?_⟩
  rw [hcache]
  have hmemkeys : ent.1 ∈ c.cache.map Prod.fst :=
    List.mem_map_of_mem Prod.fst (InMemoryCache.minExpiryEntry_mem c.cache ent hent)
  have hkeynot : lookupA (eraseA c.cache ent.1) key = none := by
    rw [lookupA_none_iff]
    intro hmem
    exact (lookupA_none_iff c.cache key).mp hnew
      ((keys_eraseA_sublist c.cache ent.1).mem hmem)
  rw [length_setA_of_none _ _ _ hkeynot, length_eraseA_of_mem _ _ hmemkeys, hfull]

/-- C5 witness: a full two-entry cache (`max_size = 2`); setting the fresh
key `"c"` evicts `"a"` (expiry 5, the soonest) and keeps the map at two
entries. -/
theorem c5_witness :
    ∃ ent, InMemoryCache.minExpiryEntry
        ([("a", 1, 5), ("b", 2, 9)] : List (String × Nat × ℚ)) = some ent
      ∧ ent ∈ ([("a", 1, 5), ("b", 2, 9)] : List (String × Nat × ℚ))
      ∧ (∀ x ∈ ([("a", 1, 5), ("b", 2, 9)] : List (String × Nat × ℚ)),
          ent.2.2 ≤ x.2.2)
      ∧ (InMemoryCache.set ⟨[("a", 1, 5), ("b", 2, 9)], 2, 300, 0, 0⟩ "c" 3
          (some 10) 0).cache
          = setA (eraseA [("a", 1, 5), ("b", 2, 9)] ent.1) "c"
              (3, 0 + orZeroQ (some 10) 300)
      ∧ (InMemoryCache.set ⟨[("a", 1, 5), ("b", 2, 9)], 2, 300, 0, 0⟩ "c" 3
          (some 10) 0).cache.length = 2 :=
  c5_evict_soonest ⟨[("a", 1, 5), ("b", 2, 9)], 2, 300, 0, 0⟩ "c" 3 (some 10) 0
    rfl (by norm_num) rfl

/-- C10: a `set` of an already-present key performed while the map holds
exactly `max_size` entries still evicts the entry with the soonest expiry
before the overwrite — so overwriting at full capacity can remove a
different, unrelated entry (when the soonest-to-expire entry is not the
overwritten key, it disappears from the map) even though the overwrite
would not grow the map. -/
theorem c10_overwrite_still_evicts {V : Type} (c : InMemoryCache V)
    (key : String) (v : V) (wv : V × ℚ) (ttl : Option ℚ) (now : ℚ)
    (hfull : c.cache.length = c.max_size)
    (hmem : lookupA c.cache key = some wv)
    (hnd : (c.cache.map Prod.fst).Nodup) :
    ∃ ent, InMemoryCache.minExpiryEntry c.cache = some ent
      ∧ (∀ x ∈ c.cache, ent.2.2 ≤ x.2.2)
      ∧ (c.set key v ttl now).cache
          = setA (eraseA c.cache ent.1) key (v, now + orZeroQ ttl c.default_ttl)
      ∧ (ent.1 ≠ key → lookupA (c.set key v ttl now).cache ent.1 = none) := by
  have hne : c.cache ≠ [] := by
    intro hnil
    rw [hnil] at hmem
    exact Option.noConfusion hmem
  obtain ⟨ent, hent⟩ := InMemoryCache.minExpiryEntry_isSome c.cache hne
  have hif : c.max_size ≤ c.cache.length := le_of_eq hfull.symm
  have hcache : (c.set key v ttl now).cache
      = setA (eraseA c.cache ent.1) key (v, now + orZeroQ ttl c.default_ttl) := by
    rw [InMemoryCache.set_cache_eq]
    simp only [hif, if_pos]
    unfold InMemoryCache.evict_oldest
    rw [hent]
  refine ⟨ent, hent, InMemoryCache.minExpiryEntry_le c.cache ent hent, hcache, ?_⟩
  intro hment
  rw [hcache, lookupA_setA_other _ _ _ _ hment,
    lookupA_eraseA_self _ _ hnd]

/-- C10 witness: a full two-entry cache; overwriting `"b"` evicts the
unrelated key `"a"` (the soonest to expire), which is then absent. -/
theorem c10_witness :
    ∃ ent, InMemoryCache.minExpiryEntry
        ([("a", 1, 5), ("b", 2, 9)] : List (String × Nat × ℚ)) = some ent
      ∧ (∀ x ∈ ([("a", 1, 5), ("b", 2, 9)] : List (String × Nat × ℚ)),
          ent.2.2 ≤ x.2.2)
      ∧ (InMemoryCache.set ⟨[("a", 1, 5), ("b", 2, 9)], 2, 300, 0, 0⟩ "b" 4
          (some 10) 0).cache
          = setA (eraseA [("a", 1, 5), ("b", 2, 9)] ent.1) "b"
              (4, 0 + orZeroQ (some 10) 300)
      ∧ (ent.1 ≠ "b" → lookupA (InMemoryCache.set
          ⟨[("a", 1, 5), ("b", 2, 9)], 2, 300, 0, 0⟩ "b" 4
          (some 10) 0).cache ent.1 = none) :=
  c10_overwrite_still_evicts ⟨[("a", 1, 5), ("b", 2, 9)], 2, 300, 0, 0⟩ "b" 4
    (2, 9) (some 10) 0 rfl rfl (by simp)

/-- C6 counterexample: a hybrid cache on the distributed path (connected
adapter, empty external store) returns `true` from `delete "k"` even
though no entry for `"k"` existed and nothing was removed (the state is
unchanged) — `RedisCache.delete` discards the removal count and returns
`True` for every successful call. -/
theorem c6_counterexample :
    (HybridCache.delete
        (⟨some ⟨true, [], 300, 0, 0⟩, InMemoryCache.init 1000 300, 300⟩ :
          HybridCache Nat) "k").1 = true
    ∧ (HybridCache.delete
        (⟨some ⟨true, [], 300, 0, 0⟩, InMemoryCache.init 1000 300, 300⟩ :
          HybridCache Nat) "k").2
        = ⟨some ⟨true, [], 300, 0, 0⟩, InMemoryCache.init 1000 300, 300⟩ := by
  constructor <;> rfl

/-- C6 amended: on the local backend, `delete(key)` returns true iff an
entry for the key existed, and removes it; on the distributed backend
(connected, call succeeding) it removes the key's entry if present but
returns true regardless of existence; the hybrid cache routes to the
distributed adapter exactly when it is connected, and to the local map
otherwise. -/
theorem c6_delete_semantics {V : Type} (c : InMemoryCache V)
    (r : RedisCache V) (h : HybridCache V) (key : String) :
    ((c.delete key).1 = (lookupA c.cache key).isSome
      ∧ (c.delete key).2.cache = eraseA c.cache key)
    ∧ (r.connected = true →
        (r.delete key).1 = true
        ∧ (r.delete key).2.store = eraseA r.store (redisKey key))
    ∧ (∀ r0, h.redis = some r0 → r0.connected = true →
        (h.delete key).1 = (r0.delete key).1
        ∧ (h.delete key).2.redis = some (r0.delete key).2)
    ∧ (h.is_distributed = false →
        (h.delete key).1 = (h.memory.delete key).1
        ∧ (h.delete key).2.memory = (h.memory.delete key).2) := by
  refine ⟨⟨?_, ?_⟩, ?_, ?_, ?_⟩
  · unfold InMemoryCache.delete
    cases hl : lookupA c.cache key <;> simp [hl]
  · unfold InMemoryCache.delete
    cases hl : lookupA c.cache key with
    | none => simp [hl, eraseA_eq_of_none c.cache key hl]
    | some w => simp [hl]
  · intro hc
    unfold RedisCache.delete
    simp [hc]
  · intro r0 hr0 hc
    unfold HybridCache.delete
    rw [hr0]
    simp [hc]
  · intro hnd
    unfold HybridCache.delete
    unfold HybridCache.is_distributed at hnd
    cases hr : h.redis with
    | none => simp [hr]
    | some r0 =>
      rw [hr] at hnd
      simp only at hnd
      simp [hr, hnd]

/-- C6 witness: the local-path conjunct applied to a hybrid cache with no
adapter and a one-entry local map — delete of the present key reports
true. -/
theorem c6_witness :
    (HybridCache.delete
        (⟨none, ⟨[("a", 7, 300)], 1000, 300, 0, 0⟩, 300⟩ :
          HybridCache Nat) "a").1
      = ((⟨[("a", 7, 300)], 1000, 300, 0, 0⟩ :
          InMemoryCache Nat).delete "a").1
    ∧ (HybridCache.delete
        (⟨none, ⟨[("a", 7, 300)], 1000, 300, 0, 0⟩, 300⟩ :
          HybridCache Nat) "a").2.memory
      = ((⟨[("a", 7, 300)], 1000, 300, 0, 0⟩ :
          InMemoryCache Nat).delete "a").2 :=
  (c6_delete_semantics (⟨[("a", 7, 300)], 1000, 300, 0, 0⟩ : InMemoryCache Nat)
    ⟨false, [], 300, 0, 0⟩
    ⟨none, ⟨[("a", 7, 300)], 1000, 300, 0, 0⟩, 300⟩ "a").2.2.2 rfl

/-- C7 counterexample: a hybrid cache on the local path whose map holds
one live entry; `clear` removes that entry but returns 0, not 1. -/
theorem c7_counterexample :
    (HybridCache.clear
        (⟨none, ⟨[("a", 7, 300)], 1000, 300, 0, 0⟩, 300⟩ :
          HybridCache Nat) "").1 = 0
    ∧ (⟨none, ⟨[("a", 7, 300)], 1000, 300, 0, 0⟩, 300⟩ :
          HybridCache Nat).memory.cache.length = 1
    ∧ (HybridCache.clear
        (⟨none, ⟨[("a", 7, 300)], 1000, 300, 0, 0⟩, 300⟩ :
          HybridCache Nat) "").2.memory.cache.length = 0 := by
  refine ⟨rfl, rfl, rfl⟩

/-- C7 amended: on the distributed path `clear(pattern)` removes every
entry whose (namespaced) key glob-matches `pattern or "*"` and returns
their count; on the local path it empties the local map but always
returns 0, whatever the map held. -/
theorem c7_clear_semantics {V : Type} (h : HybridCache V) (pat : String) :
    (h.is_distributed = false →
      (h.clear pat).1 = 0 ∧ (h.clear pat).2.memory.cache = [])
    ∧ (∀ r, h.redis = some r → r.connected = true →
        (h.clear pat).1
          = (r.store.filter (fun e =>
              globMatchStr (redisKey (orEmptyStr (some pat) "*")) e.1)).length
        ∧ (h.clear pat).2.redis
          = some { r with store := r.store.filter (fun e =>
              !globMatchStr (redisKey (orEmptyStr (some pat) "*")) e.1) }) := by
  constructor
  · intro hnd
    unfold HybridCache.clear
    unfold HybridCache.is_distributed at hnd
    cases hr : h.redis with
    | none => simp [hr, InMemoryCache.clear]
    | some r0 =>
      rw [hr] at hnd
      simp only at hnd
      simp [hr, hnd, InMemoryCache.clear]
  · intro r hr hc
    unfold HybridCache.clear
    rw [hr]
    simp [hc, RedisCache.clear]

/-- C7 witness: the distributed-path conjunct applied to a connected
adapter holding two namespaced keys, cleared with the default pattern —
both match, count 2. -/
theorem c7_witness :
    (HybridCache.clear
        (⟨some ⟨true, [("neurokid:a", 1), ("neurokid:b", 2)], 300, 0, 0⟩,
          InMemoryCache.init 1000 300, 300⟩ : HybridCache Nat) "").1
      = (([("neurokid:a", 1), ("neurokid:b", 2)] :
          List (String × Nat)).filter (fun e =>
            globMatchStr (redisKey (orEmptyStr (some "") "*")) e.1)).length
    ∧ (HybridCache.clear
        (⟨some ⟨true, [("neurokid:a", 1), ("neurokid:b", 2)], 300, 0, 0⟩,
          InMemoryCache.init 1000 300, 300⟩ : HybridCache Nat) "").2.redis
      = some ⟨true, ([("neurokid:a", 1), ("neurokid:b", 2)] :
          List (String × Nat)).filter (fun e =>
            !globMatchStr (redisKey (orEmptyStr (some "") "*")) e.1), 300, 0, 0⟩ :=
  (c7_clear_semantics
    (⟨some ⟨true, [("neurokid:a", 1), ("neurokid:b", 2)], 300, 0, 0⟩,
      InMemoryCache.init 1000 300, 300⟩ : HybridCache Nat) "").2
    ⟨true, [("neurokid:a", 1), ("neurokid:b", 2)], 300, 0, 0⟩ rfl rfl

/-! ## `api/task_queue.py` — `Task`, `InProcessQueue`

The queue's `queue.PriorityQueue` is backed by a Python list managed by
CPython's `heapq`; both the list and the heap algorithms (`_siftdown`,
`_siftup`, `heappush`, `heappop`) are modelled below. Comparisons between
entries can raise `TypeError` (a `(priority, task)` tuple comparison falls
through to `Task < Task` when the priorities are equal, and `Task` defines
no ordering), so every heap operation returns `Except String`. -/

deriving instance DecidableEq for Except

/-- `Task` (lines 22-35). The deferred invocation `func(*args, **kwargs)`
is modelled by the outcome of its single call: `.ok v` when it returns
`v`, `.error msg` when it raises an exception `e` with `str(e) = msg`
(the message may be empty, as for `raise ValueError()`). -/
structure Task (V : Type) where
  id : String
  payload : Except String V
  priority : Int
  created_at : ℚ
  status : String
  result : Option V
  error : Option String
deriving Repr, DecidableEq

/-- `Task.__init__` (lines 25-35): `self.id = task_id or
f"task_{int(time.time() * 1000)}"` — the generated id is the creation
time in whole milliseconds (`now_ms`), so it is not unique across tasks
created in the same millisecond. Status starts `"pending"`. -/
def Task.init {V : Type} (payload : Except String V) (priority : Int)
    (task_id : Option String) (now_ms : Nat) (created_at : ℚ) : Task V :=
  { id := orEmptyStr task_id ("task_" ++ toString now_ms),
    payload := payload, priority := priority, created_at := created_at,
    status := "pending", result := none, error := none }

/-- `Task.execute` (lines 37-47): mark running, call the payload; a normal
return stores the result and marks completed; an exception records
`self.error = str(e)`, marks failed and re-raises. The second component is
what the call itself does (return value or re-raised exception). -/
def Task.execute {V : Type} (t : Task V) : Task V × Except String V :=
  match t.payload with
  | .ok v => ({ t with status := "completed", result := some v }, .ok v)
  | .error e => ({ t with status := "failed", error := some e }, .error e)

/-- Python comparison of two `(priority, task)` heap entries: tuple
comparison is decided by the integer priorities when they differ; equal
priorities fall through to `Task < Task`, which raises `TypeError`
(`Task` defines no `__lt__`). -/
def entryLt {V : Type} (a b : Int × Task V) : Except String Bool :=
  if a.1 < b.1 then .ok true
  else if b.1 < a.1 then .ok false
  else .error "TypeError"

/-- `heap[i] = v` on the backing Python list (always in bounds where the
heap algorithms use it; out of range is a no-op here). -/
def setL {α : Type} : List α → Nat → α → List α
  | [], _, _ => []
  | _ :: xs, 0, v => v :: xs
  | x :: xs, i + 1, v => x :: setL xs i v

theorem setL_length {α : Type} :
    ∀ (l : List α) (i : Nat) (v : α), (setL l i v).length = l.length := by
  intro l
  induction l with
  | nil => intro i v; rfl
  | cons x xs ih =>
    intro i v
    cases i with
    | zero => rfl
    | succ j => simp [setL, ih]

/-- The loop of CPython `heapq._siftdown(heap, startpos, pos)`: bubble
`newitem` (which the callers have stored at `heap[pos]`) up toward the
root while it compares strictly less than its parent, then place it.
`fuel` makes the recursion structural; each iteration moves `pos` to
`(pos - 1) / 2 < pos`, so any `fuel ≥ pos` gives the exact CPython loop
(when fuel runs out `pos = startpos` and the loop has already exited). -/
def siftdownGo {V : Type} : Nat → List (Int × Task V) → Nat → Nat →
    Int × Task V → Except String (List (Int × Task V))
  | 0, heap, _, pos, newitem => .ok (setL heap pos newitem)
  | fuel + 1, heap, startpos, pos, newitem =>
    if startpos < pos then
      let parentpos := (pos - 1) / 2
      let parent := heap.getD parentpos newitem
      match entryLt newitem parent with
      | .error e => .error e
      | .ok true => siftdownGo fuel (setL heap pos parent) startpos parentpos newitem
      | .ok false => .ok (setL heap pos newitem)
    else .ok (setL heap pos newitem)

/-- CPython `heapq._siftdown(heap, startpos, pos)` with `newitem =
heap[pos]` passed explicitly. -/
def siftdownPy {V : Type} (heap : List (Int × Task V)) (startpos pos : Nat)
    (newitem : Int × Task V) : Except String (List (Int × Task V)) :=
  siftdownGo pos heap startpos pos newitem

/-- The loop of CPython `heapq._siftup(heap, pos)`: move the hole at `pos`
down along the smaller child to a leaf, place `newitem` there, then
restore with `_siftdown`. The child comparison
`heap[childpos] < heap[rightpos]` can raise. `fuel` makes the recursion
structural; each iteration moves `pos` to at least `2 * pos + 1` and stops
once `2 * pos + 1 ≥ heap.length`, so any `fuel ≥ heap.length` gives the
exact CPython loop. -/
def siftupGo {V : Type} : Nat → List (Int × Task V) → Nat → Nat →
    Int × Task V → Except String (List (Int × Task V))
  | 0, heap, startpos, pos, newitem =>
    siftdownPy (setL heap pos newitem) startpos pos newitem
  | fuel + 1, heap, startpos, pos, newitem =>
    if 2 * pos + 1 < heap.length then
      if 2 * pos + 2 < heap.length then
        match entryLt (heap.getD (2 * pos + 1) newitem)
            (heap.getD (2 * pos + 2) newitem) with
        | .error e => .error e
        | .ok true =>
          siftupGo fuel (setL heap pos (heap.getD (2 * pos + 1) newitem))
            startpos (2 * pos + 1) newitem
        | .ok false =>
          siftupGo fuel (setL heap pos (heap.getD (2 * pos + 2) newitem))
            startpos (2 * pos + 2) newitem
      else
        siftupGo fuel (setL heap pos (heap.getD (2 * pos + 1) newitem))
          startpos (2 * pos + 1) newitem
    else siftdownPy (setL heap pos newitem) startpos pos newitem

/-- CPython `heapq._siftup(heap, pos)` with `newitem = heap[pos]` passed
explicitly. -/
def siftupPy {V : Type} (heap : List (Int × Task V)) (startpos pos : Nat)
    (newitem : Int × Task V) : Except String (List (Int × Task V)) :=
  siftupGo heap.length heap startpos pos newitem

/-- CPython `heapq.heappush`: append, then sift the new item up from the
last position. -/
def heappush {V : Type} (heap : List (Int × Task V)) (item : Int × Task V) :
    Except String (List (Int × Task V)) :=
  siftdownPy (heap ++ [item]) 0 ((heap ++ [item]).length - 1) item

/-- CPython `heapq.heappop`: pop the last list element; if elements remain,
the root is returned and the popped element is sifted down from the root.
An empty heap yields `none` (there `queue.get` would block; a drain with no
new arrivals stops). -/
def heappop {V : Type} (heap : List (Int × Task V)) :
    Except String (Option ((Int × Task V) × List (Int × Task V))) :=
  match heap.getLast? with
  | none => .ok none
  | some lastelt =>
    match heap.dropLast with
    | [] => .ok (some (lastelt, []))
    | r :: rest =>
      (siftupPy (setL (r :: rest) 0 lastelt) 0 0 lastelt).map
        (fun hp => some (r, hp))

/-- Repeated `heappop` (the dequeue order a single worker sees when
draining with no new arrivals), collecting the priorities; `fuel` bounds
the number of pops (a fuel of at least the heap size drains fully). -/
def drainPrios {V : Type} : Nat → List (Int × Task V) → Except String (List Int)
  | 0, _ => .ok []
  | fuel + 1, heap =>
    match heappop heap with
    | .error e => .error e
    | .ok none => .ok []
    | .ok (some (item, rest)) => (drainPrios fuel rest).map (fun l => item.1 :: l)

/-- State of `InProcessQueue` (lines 50-61): the priority heap's backing
list and the `_tasks` lookup table, plus the processed/failed counters. -/
structure InProcessQueue (V : Type) where
  heap : List (Int × Task V)
  tasks : List (String × Task V)
  processed : Nat
  failed : Nat
deriving Repr, DecidableEq

/-- `InProcessQueue.enqueue` (lines 99-104): register the task in the
lookup table under `task.id` (overwriting any task that already has that
id), then `self._queue.put((task.priority, task))` — which can raise
`TypeError` from the heap comparison. -/
def InProcessQueue.enqueue {V : Type} (q : InProcessQueue V) (t : Task V) :
    Except String (InProcessQueue V × String) :=
  let tasks := setA q.tasks t.id t
  (heappush q.heap (t.priority, t)).map
    (fun h => ({ q with heap := h, tasks := tasks }, t.id))

/-- `InProcessQueue.get_task` (lines 106-108). -/
def InProcessQueue.get_task {V : Type} (q : InProcessQueue V) (id : String) :
    Option (Task V) :=
  lookupA q.tasks id

/-- One worker's processing of an already-dequeued list of
`(priority, item)` entries (`InProcessQueue._worker`, lines 82-97): a
`none` item is the stop sentinel (break); otherwise `task.execute()` runs —
a raising task is caught by the worker's `except Exception` branch, which
increments `failed` and lets the loop continue, while a normal task
increments `processed`. Returns the executed tasks in order together with
the final `(processed, failed)` counters. -/
def workerRun {V : Type} : List (Int × Option (Task V)) → Nat → Nat →
    List (Task V) × Nat × Nat
  | [], processed, failed => ([], processed, failed)
  | (_, none) :: _, processed, failed => ([], processed, failed)
  | (_, some t) :: more, processed, failed =>
    let r := t.execute
    match r.2 with
    | .ok _ =>
      let res := workerRun more (processed + 1) failed
      (r.1 :: res.1, res.2)
    | .error _ =>
      let res := workerRun more processed (failed + 1)
      (r.1 :: res.1, res.2)

/-- C1 counterexample: a payload that raises an exception whose text is
empty (`str(e) = ""`, as for `raise ValueError()`) ends failed, but the
recorded error message `self.error = str(e)` is the empty string — not
non-empty as claimed. -/
theorem c1_counterexample :
    ((Task.init (Except.error "" : Except String Nat) 5 none 1712 0).execute).1.status
        = "failed"
    ∧ ((Task.init (Except.error "" : Except String Nat) 5 none 1712 0).execute).1.error
        = some "" := by
  constructor <;> rfl

/-- C1 amended: a work item whose payload raises ends in status `failed`
with its error message equal to the raised exception's text — hence
non-empty whenever that text is non-empty (the counterexample forces this
qualification: `str(e)` can be empty); the worker's `except` branch
swallows the re-raised exception, so the loop continues and a subsequently
dequeued non-raising item still ends `completed`; `failed` and `processed`
each count their item. -/
theorem c1_failure_isolation {V : Type} (e : String) (v : V)
    (p1 p2 : Int) (id1 id2 : Option String) (ms1 ms2 : Nat) (ct1 ct2 : ℚ)
    (he : e ≠ "") :
    (workerRun [(p1, some (Task.init (Except.error e) p1 id1 ms1 ct1)),
        (p2, some (Task.init (Except.ok v) p2 id2 ms2 ct2))] 0 0).1.map
        (fun t => (t.status, t.error, t.result))
      = [("failed", some e, none), ("completed", none, some v)]
    ∧ (workerRun [(p1, some (Task.init (Except.error e) p1 id1 ms1 ct1)),
        (p2, some (Task.init (Except.ok v) p2 id2 ms2 ct2))] 0 0).2 = (1, 1)
    ∧ (Task.init (Except.error e : Except String V) p1 id1 ms1
        ct1).execute.1.error ≠ some "" := by
  refine ⟨?_, ?_, ?_⟩
  · simp [workerRun, Task.execute, Task.init]
  · simp [workerRun, Task.execute, Task.init]
  · simp [Task.execute, Task.init, he]

/-- C1 witness: a task raising `"boom"` followed by a task returning 42. -/
theorem c1_witness :
    (workerRun [((5 : Int), some (Task.init (Except.error "boom") 5 none 1712 0)),
        ((5 : Int), some (Task.init (Except.ok (42 : Nat)) 5 none 1712 0))] 0 0).1.map
        (fun t => (t.status, t.error, t.result))
      = [("failed", some "boom", none), ("completed", none, some 42)]
    ∧ (workerRun [((5 : Int), some (Task.init (Except.error "boom") 5 none 1712 0)),
        ((5 : Int), some (Task.init (Except.ok (42 : Nat)) 5 none 1712 0))] 0 0).2 = (1, 1)
    ∧ (Task.init (Except.error "boom" : Except String Nat) 5 none 1712
        0).execute.1.error ≠ some "" :=
  c1_failure_isolation "boom" 42 5 5 none none 1712 1712 0 0 (by decide)

/-- C2 failing input (code bug): enqueueing two work items with equal
priority — the source's default priority is 5 for every task — makes the
heap compare the two `(5, task)` tuples; the tuple comparison falls
through to `Task < Task`, which Python cannot order, so
`queue.PriorityQueue.put` raises `TypeError` instead of enqueueing.
Distinct priorities work: pushes of priorities [5, 1, 3] drain in
ascending order 1, 3, 5, as the claim's example states. -/
theorem c2_equal_priority_put_raises :
    ((heappush ([] : List (Int × Task Nat))
        (5, Task.init (Except.ok 1) 5 (some "ta") 0 0)).bind
      (fun h => heappush h (5, Task.init (Except.ok 2) 5 (some "tb") 0 0)))
      = .error "TypeError"
    ∧ ((((heappush ([] : List (Int × Task Nat))
        (5, Task.init (Except.ok 1) 5 (some "t5") 0 0)).bind
      (fun h => heappush h (1, Task.init (Except.ok 2) 1 (some "t1") 0 0))).bind
      (fun h => heappush h (3, Task.init (Except.ok 3) 3 (some "t3") 0 0))).bind
      (drainPrios 3))
      = .ok [1, 3, 5] := by
  constructor <;> rfl

/-- C8 failing input (code bug): two tasks created without a caller-
supplied id in the same millisecond (`int(time.time() * 1000) = 1712`)
receive the same generated id `task_1712`; enqueueing both (with distinct
priorities, so the heap does not raise) leaves a single lookup-table entry,
and `get_task` of the first task's id returns the second task. -/
theorem c8_same_ms_id_collision :
    (Task.init (Except.ok 1 : Except String Nat) 5 none 1712 0).id
      = (Task.init (Except.ok 2 : Except String Nat) 7 none 1712 0).id
    ∧ (Task.init (Except.ok 1 : Except String Nat) 5 none 1712 0)
      ≠ (Task.init (Except.ok 2 : Except String Nat) 7 none 1712 0)
    ∧ ((InProcessQueue.enqueue (⟨[], [], 0, 0⟩ : InProcessQueue Nat)
          (Task.init (Except.ok 1) 5 none 1712 0)).bind
        (fun r => InProcessQueue.enqueue r.1
          (Task.init (Except.ok 2) 7 none 1712 0))).map
        (fun r => (r.1.tasks.length,
          r.1.get_task (Task.init (Except.ok 1 : Except String Nat) 5 none
            1712 0).id))
      = .ok (1, some (Task.init (Except.ok 2) 7 none 1712 0)) := by
  refine ⟨rfl, by decide, by decide⟩

end PyTasks
